import Mathlib

set_option autoImplicit false
set_option maxRecDepth 100000

/-!
Shallow embedding of the miniflux-jobs rule-matching engine and batch
processor (Go sources `matcher.go`, `processor.go`, `config.go`).

The Go `regexp` package is external to the repository; compiled patterns are
modelled by a small executable regular-expression type `Regexp` whose
`MatchString` has Go's unanchored "contains a match" semantics (every
constructor corresponds to Go pattern syntax, e.g. `.star .dot` is the Go
pattern `.*`).  Pattern *compilation* (which can fail on invalid syntax) is
modelled by an abstract parameter `compile : String → Option Regexp`, since
its behaviour lives in Go's standard library, not in this repository.
-/

namespace MinifluxJobs

/-- Abstract syntax of regular expressions: empty language, empty string,
single character, any character (`.`), alternation, concatenation, Kleene
star. -/
inductive Regexp where
  | emp : Regexp
  | eps : Regexp
  | chr : Char → Regexp
  | dot : Regexp
  | alt : Regexp → Regexp → Regexp
  | cat : Regexp → Regexp → Regexp
  | star : Regexp → Regexp
  deriving DecidableEq

/-- Whether the regular expression accepts the empty string. -/
def Regexp.nullable : Regexp → Bool
  | .emp => false
  | .eps => true
  | .chr _ => false
  | .dot => false
  | .alt r s => r.nullable || s.nullable
  | .cat r s => r.nullable && s.nullable
  | .star _ => true

/-- Brzozowski derivative of a regular expression by one character. -/
def Regexp.deriv : Regexp → Char → Regexp
  | .emp, _ => .emp
  | .eps, _ => .emp
  | .chr c, a => if a = c then .eps else .emp
  | .dot, _ => .eps
  | .alt r s, a => .alt (r.deriv a) (s.deriv a)
  | .cat r s, a =>
    if r.nullable then .alt (.cat (r.deriv a) s) (s.deriv a)
    else .cat (r.deriv a) s
  | .star r, a => .cat (r.deriv a) (.star r)

/-- Whether the regular expression accepts exactly the given character list. -/
def Regexp.fullMatch : Regexp → List Char → Bool
  | r, [] => r.nullable
  | r, c :: cs => (r.deriv c).fullMatch cs

/-- Go `regexp.MatchString` semantics: the string *contains* a match of the
pattern, i.e. `.*` ++ pattern ++ `.*` accepts the whole string. -/
def Regexp.MatchString (r : Regexp) (s : String) : Bool :=
  Regexp.fullMatch (.cat (.star .dot) (.cat r (.star .dot))) s.toList

/-- The Go pattern `.+` (one or more characters). -/
def dotPlus : Regexp := .cat .dot (.star .dot)

/-- The Go pattern `.*` (zero or more characters). -/
def dotStar : Regexp := .star .dot

/-- A literal string as a regular expression (concatenation of characters). -/
def Regexp.lit (s : String) : Regexp :=
  s.toList.foldr (fun c r => .cat (.chr c) r) .eps

/-! Data model, from `config.go` and the miniflux client types. -/

/-- Rule, from `config.go`: a named filter with four optional regex pattern
strings (empty string = field absent) and an action token. -/
structure Rule where
  Name : String
  Feed : String
  Author : String
  Title : String
  Content : String
  Action : String
  deriving DecidableEq

/-- Parent feed of an entry (`miniflux.Feed`, the part the engine reads). -/
structure Feed where
  Title : String
  deriving DecidableEq

/-- An item from the remote source (`miniflux.Entry`, the fields the engine
reads).  `Feed = none` models a nil parent-feed pointer. -/
structure Entry where
  ID : Int
  Title : String
  Author : String
  Content : String
  Feed : Option Feed
  deriving DecidableEq

/-! Rule matcher, from `matcher.go`. -/

/-- compiledRule, from `matcher.go`: a Rule with pre-compiled patterns;
`none` models a nil `*regexp.Regexp` (the field string was empty). -/
structure compiledRule where
  rule : Rule
  feed : Option Regexp
  author : Option Regexp
  title : Option Regexp
  content : Option Regexp
  deriving DecidableEq

/-- Matcher, from `matcher.go`. -/
structure Matcher where
  compiledRules : List compiledRule
  deriving DecidableEq

/-- RegexError, from `matcher.go` (the wrapped library error is external and
not carried). -/
structure RegexError where
  Field : String
  Rule : String
  deriving DecidableEq

/-- One field compilation step of `NewMatcher`: an empty pattern string is
skipped (nil compiled pattern); otherwise compilation failure produces a
`RegexError` naming the field and the rule. -/
def compileField (compile : String → Option Regexp) (pat fieldName ruleName : String) :
    Except RegexError (Option Regexp) :=
  if pat = "" then .ok none
  else
    match compile pat with
    | some re => .ok (some re)
    | none => .error { Field := fieldName, Rule := ruleName }

/-- The body of `NewMatcher`'s loop for one rule: fields are tried in source
order feed, author, title, content, returning on the first failure. -/
def compileRule (compile : String → Option Regexp) (rule : Rule) :
    Except RegexError compiledRule :=
  match compileField compile rule.Feed "feed" rule.Name with
  | .error e => .error e
  | .ok f =>
    match compileField compile rule.Author "author" rule.Name with
    | .error e => .error e
    | .ok a =>
      match compileField compile rule.Title "title" rule.Name with
      | .error e => .error e
      | .ok t =>
        match compileField compile rule.Content "content" rule.Name with
        | .error e => .error e
        | .ok c => .ok { rule := rule, feed := f, author := a, title := t, content := c }

/-- The loop of `NewMatcher`: rules are compiled in declaration order and the
first failure aborts the whole construction. -/
def compileRules (compile : String → Option Regexp) :
    List Rule → Except RegexError (List compiledRule)
  | [] => .ok []
  | r :: rest =>
    match compileRule compile r with
    | .error e => .error e
    | .ok cr =>
      match compileRules compile rest with
      | .error e => .error e
      | .ok crs => .ok (cr :: crs)

/-- NewMatcher, from `matcher.go`, parametric in the external pattern
compiler. -/
def NewMatcher (compile : String → Option Regexp) (rules : List Rule) :
    Except RegexError Matcher :=
  match compileRules compile rules with
  | .error e => .error e
  | .ok crs => .ok { compiledRules := crs }

/-- Go `strings.ToLower`, modelled character-wise over the string's
characters (the action tokens compared against are plain ASCII). -/
def toLowerStr (s : String) : String := String.mk (s.data.map Char.toLower)

/-- MatchResult, from `matcher.go`.  `Rule = none` / `Action = ""` are the Go
zero values of the non-matched result. -/
structure MatchResult where
  Matched : Bool
  Rule : Option Rule
  Action : String
  deriving DecidableEq

/-- matchRule, from `matcher.go`: every non-nil compiled pattern must match
the corresponding entry field; a nil parent feed contributes the empty
string as feed title. -/
def matchRule (cr : compiledRule) (entry : Entry) : Bool :=
  (match cr.feed with
   | some re =>
     re.MatchString (match entry.Feed with
       | some f => f.Title
       | none => "")
   | none => true)
  &&
  (match cr.author with
   | some re => re.MatchString entry.Author
   | none => true)
  &&
  (match cr.title with
   | some re => re.MatchString entry.Title
   | none => true)
  &&
  (match cr.content with
   | some re => re.MatchString entry.Content
   | none => true)

/-- Match, from `matcher.go`: return the first compiled rule (in declaration
order) accepted by `matchRule`, with its action lower-cased; otherwise the
zero-valued non-matched result. -/
def Match (m : Matcher) (entry : Entry) : MatchResult :=
  match m.compiledRules.find? (fun cr => matchRule cr entry) with
  | some cr =>
    { Matched := true, Rule := some cr.rule, Action := toLowerStr cr.rule.Action }
  | none => { Matched := false, Rule := none, Action := "" }

/-! Batch processor, from `processor.go` and `client.go`.  The remote client
is abstract (a record of response functions); `Process` is additionally
instrumented to record the fetch and update calls it issues, and its
unbounded `for` loop is given explicit fuel (exhaustion is reported as a
distinguished error so a normally terminated run is recognisable). -/

/-- Status constants of the miniflux client library. -/
def EntryStatusUnread : String := "unread"

/-- Status applied by the action `read`. -/
def EntryStatusRead : String := "read"

/-- Status applied by the action `remove`. -/
def EntryStatusRemoved : String := "removed"

/-- The slice of `miniflux.Filter` the processor sets.  `Status = ""` is the
Go zero value, meaning no status filter. -/
structure Filter where
  Limit : Nat
  Offset : Nat
  Status : String
  deriving DecidableEq

/-- The slice of `miniflux.EntryResultSet` the processor reads: one page of
entries plus the remote-reported total count (a server-supplied integer). -/
structure Page where
  Entries : List Entry
  Total : Int
  deriving DecidableEq

/-- The `MinifluxClient` interface from `client.go`, as abstract response
functions (`.error ()` models a non-nil Go error; `Feeds` is unused by the
processing path). -/
structure Client where
  Entries : Filter → Except Unit Page
  UpdateEntries : List Int → String → Except Unit Unit

/-- ProcessStats, from `processor.go`. -/
structure ProcessStats where
  TotalEntries : Nat
  MatchedEntries : Nat
  MarkedRead : Nat
  Removed : Nat
  Errors : Nat
  deriving DecidableEq

/-- The zero-valued statistics `Process` starts from. -/
def ProcessStats.zero : ProcessStats :=
  { TotalEntries := 0, MatchedEntries := 0, MarkedRead := 0, Removed := 0, Errors := 0 }

/-- The tail of `processEntry` after the action switch: dry-run only logs
(issues no call); live mode issues the single-entry update and counts a
failure as an error without undoing earlier counter increments. -/
def processEntryApply (client : Client) (dryRun : Bool) (entry : Entry)
    (status : String) (stats : ProcessStats) :
    ProcessStats × List (List Int × String) :=
  if dryRun then (stats, [])
  else
    match client.UpdateEntries [entry.ID] status with
    | .error _ => ({ stats with Errors := stats.Errors + 1 }, [([entry.ID], status)])
    | .ok _ => (stats, [([entry.ID], status)])

/-- processEntry, from `processor.go`: besides the updated statistics it
returns the update calls issued to the client (`[]` or one call, recorded
whether or not the call succeeded). -/
def processEntry (client : Client) (m : Matcher) (dryRun : Bool)
    (entry : Entry) (stats : ProcessStats) :
    ProcessStats × List (List Int × String) :=
  let result := Match m entry
  if result.Matched = false then (stats, [])
  else
    let stats1 := { stats with MatchedEntries := stats.MatchedEntries + 1 }
    if result.Action = "read" then
      processEntryApply client dryRun entry EntryStatusRead
        { stats1 with MarkedRead := stats1.MarkedRead + 1 }
    else if result.Action = "remove" then
      processEntryApply client dryRun entry EntryStatusRemoved
        { stats1 with Removed := stats1.Removed + 1 }
    else
      ({ stats1 with Errors := stats1.Errors + 1 }, [])

/-- The inner `for` loop of `Process` over one page's entries: total-seen is
incremented for every entry, then `processEntry` runs; update calls are
collected in order. -/
def processPage (client : Client) (m : Matcher) (dryRun : Bool) :
    List Entry → ProcessStats → ProcessStats × List (List Int × String)
  | [], stats => (stats, [])
  | e :: rest, stats =>
    let stats1 := { stats with TotalEntries := stats.TotalEntries + 1 }
    let r1 := processEntry client m dryRun e stats1
    let r2 := processPage client m dryRun rest r1.1
    (r2.1, r1.2 ++ r2.2)

/-- Why a run of the pagination loop ended abnormally: a failed page fetch
(from the code), or fuel exhaustion (an artifact of the embedding of the
unbounded Go loop). -/
inductive RunError where
  | fetchFailed : RunError
  | outOfFuel : RunError
  deriving DecidableEq

/-- Result of a run: final statistics, the fetch calls and update calls
issued (in order), and how the run ended (`none` = normal termination). -/
structure RunResult where
  stats : ProcessStats
  fetchCalls : List Filter
  updateCalls : List (List Int × String)
  err : Option RunError
  deriving DecidableEq

/-- One fetch filter of the pagination loop: fixed page size 100, current
offset, and the status filter fixed before the loop (`""` = all statuses in
dry-run, unread-only otherwise). -/
def loopFilter (dryRun : Bool) (offset : Nat) : Filter :=
  { Limit := 100, Offset := offset,
    Status := if dryRun then "" else EntryStatusUnread }

/-- The pagination `for` loop of `Process`: fetch a page at the current
offset (limit 100; unread-only unless dry-run), stop on a fetch error, an
empty page, or once the offset advanced by the page length reaches the
remote-reported total. -/
def processLoop (client : Client) (m : Matcher) (dryRun : Bool) :
    Nat → Nat → ProcessStats → RunResult
  | 0, _, stats => { stats := stats, fetchCalls := [], updateCalls := [], err := some .outOfFuel }
  | fuel + 1, offset, stats =>
    let filt : Filter := loopFilter dryRun offset
    match client.Entries filt with
    | .error _ =>
      { stats := stats, fetchCalls := [filt], updateCalls := [], err := some .fetchFailed }
    | .ok page =>
      if page.Entries.length = 0 then
        { stats := stats, fetchCalls := [filt], updateCalls := [], err := none }
      else
        let r := processPage client m dryRun page.Entries stats
        let offset1 := offset + page.Entries.length
        if page.Total ≤ (offset1 : Int) then
          { stats := r.1, fetchCalls := [filt], updateCalls := r.2, err := none }
        else
          let rest := processLoop client m dryRun fuel offset1 r.1
          { stats := rest.stats, fetchCalls := filt :: rest.fetchCalls,
            updateCalls := r.2 ++ rest.updateCalls, err := rest.err }

/-- Process, from `processor.go`: fresh statistics, then the pagination loop
from offset 0.  On a fetch failure the statistics accumulated so far are
returned alongside the error, as in the Go code. -/
def Process (client : Client) (m : Matcher) (dryRun : Bool) (fuel : Nat) : RunResult :=
  processLoop client m dryRun fuel 0 ProcessStats.zero

/-- A remote source serving the fixed collection `L` consistently: each fetch
returns the slice of `L` at the requested offset, at most `Limit` entries,
with the true total count; updates always succeed. -/
def consistentClient (L : List Entry) : Client :=
  { Entries := fun filt =>
      .ok { Entries := (L.drop filt.Offset).take filt.Limit, Total := (L.length : Int) },
    UpdateEntries := fun _ _ => .ok () }

/-- Feed title the matcher sees for an entry: the parent feed's title, or
the empty string when the parent-feed reference is absent. -/
def entryFeedTitle (e : Entry) : String :=
  match e.Feed with
  | some f => f.Title
  | none => ""

/-! Concrete fixtures used by witnesses and counterexamples. -/

/-- Fixture rule: match author Bob, mark read. -/
def ruleA : Rule :=
  { Name := "First rule", Feed := "", Author := "Bob", Title := "", Content := "", Action := "read" }

/-- Fixture rule: match author Bob, remove. -/
def ruleB : Rule :=
  { Name := "Second rule", Feed := "", Author := "Bob", Title := "", Content := "", Action := "remove" }

/-- Compiled form of `ruleA`. -/
def crA : compiledRule :=
  { rule := ruleA, feed := none, author := some (Regexp.lit "Bob"), title := none, content := none }

/-- Compiled form of `ruleB`. -/
def crB : compiledRule :=
  { rule := ruleB, feed := none, author := some (Regexp.lit "Bob"), title := none, content := none }

/-- Matcher holding `ruleA` then `ruleB`. -/
def mAB : Matcher := { compiledRules := [crA, crB] }

/-- An entry authored by Bob, with no parent feed. -/
def eBob : Entry := { ID := 1, Title := "", Author := "Bob", Content := "", Feed := none }

/-- A pattern compiler knowing exactly the Go pattern `.*`. -/
def compileStar (s : String) : Option Regexp :=
  if s = ".*" then some dotStar else none

/-- Fixture rule whose feed pattern is the non-empty Go pattern `.*`. -/
def ruleStar : Rule :=
  { Name := "Any feed", Feed := ".*", Author := "", Title := "", Content := "", Action := "read" }

/-- Compiled form of `ruleStar`. -/
def crStar : compiledRule :=
  { rule := ruleStar, feed := some dotStar, author := none, title := none, content := none }

/-- Matcher holding only `ruleStar`. -/
def mStar : Matcher := { compiledRules := [crStar] }

/-- An entry with no parent feed. -/
def eNoFeed : Entry := { ID := 2, Title := "Test", Author := "", Content := "", Feed := none }

/-- The Go pattern `Tech.*`. -/
def litTechStar : Regexp := (Regexp.lit "Tech").cat dotStar

/-- Fixture rule with feed pattern `Tech.*`. -/
def ruleTech : Rule :=
  { Name := "Match Tech feeds", Feed := "Tech.*", Author := "", Title := "", Content := "", Action := "read" }

/-- Compiled form of `ruleTech`. -/
def crTech : compiledRule :=
  { rule := ruleTech, feed := some litTechStar, author := none, title := none, content := none }

/-- Fixture rule with feed pattern `.+`. -/
def rulePlus : Rule :=
  { Name := "Nonempty feed", Feed := ".+", Author := "", Title := "", Content := "", Action := "read" }

/-- Compiled form of `rulePlus`. -/
def crPlus : compiledRule :=
  { rule := rulePlus, feed := some dotPlus, author := none, title := none, content := none }

/-- Whether one pattern field compiles: an empty field is skipped, a
non-empty one must be accepted by the compiler. -/
def fieldOk (compile : String → Option Regexp) (pat : String) : Bool :=
  pat = "" || (compile pat).isSome

/-- Whether all four pattern fields of a rule compile. -/
def ruleOk (compile : String → Option Regexp) (r : Rule) : Bool :=
  fieldOk compile r.Feed && fieldOk compile r.Author &&
  fieldOk compile r.Title && fieldOk compile r.Content

/-- The first pattern field of a rule, in the source's field order feed,
author, title, content, that is non-empty and fails to compile (`""` when
all compile). -/
def firstInvalidField (compile : String → Option Regexp) (r : Rule) : String :=
  if fieldOk compile r.Feed = false then "feed"
  else if fieldOk compile r.Author = false then "author"
  else if fieldOk compile r.Title = false then "title"
  else if fieldOk compile r.Content = false then "content"
  else ""

/-- A pattern compiler accepting everything except the invalid Go pattern
`[bad`. -/
def compileW (s : String) : Option Regexp :=
  if s = "[bad" then none else some dotStar

/-- Fixture rule whose patterns all compile under `compileW`. -/
def ruleGood : Rule :=
  { Name := "Good", Feed := "x", Author := "", Title := "", Content := "", Action := "read" }

/-- Fixture rule whose author and title patterns are invalid under
`compileW`; the author field fails first. -/
def ruleBad : Rule :=
  { Name := "Bad", Feed := "y", Author := "[bad", Title := "[bad", Content := "", Action := "read" }

/-- Fixture rule placed after `ruleBad`, itself invalid, to show later rules
do not influence the reported error. -/
def ruleAfter : Rule :=
  { Name := "After", Feed := "[bad", Author := "", Title := "", Content := "", Action := "read" }

/-- The empty matcher (no rules). -/
def matcher0 : Matcher := { compiledRules := [] }

/-- A remote source that answers every fetch with the same 50-entry page
(fewer than the requested 100) while reporting a total of 150. -/
def shortPageClient : Client :=
  { Entries := fun _ => .ok { Entries := List.replicate 50 eBob, Total := 150 },
    UpdateEntries := fun _ _ => .ok () }

example : Regexp.MatchString (Regexp.lit "Tech" |>.cat dotStar) "Tech News" = true := by decide
example : Regexp.MatchString (Regexp.lit "Tech" |>.cat dotStar) "Sports News" = false := by decide
example : Regexp.MatchString dotStar "" = true := by decide
example : Regexp.MatchString dotPlus "" = false := by decide
example : Regexp.MatchString (Regexp.lit "#promo") "This is a #promo post" = true := by decide

/-! Helper lemmas shared by several claim theorems. -/

theorem find_first {α : Type} (p : α → Bool) (pre : List α) (x : α) (post : List α)
    (hpre : ∀ y ∈ pre, p y = false) (hx : p x = true) :
    (pre ++ x :: post).find? p = some x := by
  induction pre with
  | nil => simp [List.find?_cons, hx]
  | cons a l ih =>
    have ha : p a = false := hpre a (by simp)
    rw [List.cons_append, List.find?_cons, ha]
    exact ih fun y hy => hpre y (by simp [hy])

theorem find_none {α : Type} (p : α → Bool) (l : List α)
    (h : ∀ y ∈ l, p y = false) : l.find? p = none :=
  List.find?_eq_none.mpr fun x hx => by simp [h x hx]

theorem find_congr {α : Type} (p q : α → Bool) (l : List α)
    (h : ∀ y ∈ l, p y = q y) : l.find? p = l.find? q := by
  induction l with
  | nil => rfl
  | cons a l ih =>
    rw [List.find?_cons, List.find?_cons, h a (by simp)]
    cases q a
    · exact ih fun y hy => h y (by simp [hy])
    · rfl

/-- A missing parent feed is matched exactly like an empty feed title. -/
theorem matchRule_feed_none (cr : compiledRule) (e : Entry) (he : e.Feed = none) :
    matchRule cr e = matchRule cr { e with Feed := some { Title := "" } } := by
  simp [matchRule, he]

/-! C1 -/

/-- C1: `Match` returns the first rule in declaration order for which all of
that rule's non-empty compiled patterns match the corresponding item fields
(conjunct 3 spells out the AND across the four fields; conjunct 2 is
first-wins across rules), and returns the zero-valued non-matched result
when no rule fully matches, in particular when the rule sequence is
empty. -/
theorem c1_match_first_wins (m : Matcher) (e : Entry) :
    ((∀ cr ∈ m.compiledRules, matchRule cr e = false) →
      Match m e = { Matched := false, Rule := none, Action := "" })
    ∧
    (∀ pre cr post, m.compiledRules = pre ++ cr :: post →
      (∀ cr' ∈ pre, matchRule cr' e = false) →
      matchRule cr e = true →
      Match m e = { Matched := true, Rule := some cr.rule,
                    Action := toLowerStr cr.rule.Action })
    ∧
    (∀ cr : compiledRule,
      matchRule cr e = true ↔
        ((∀ re, cr.feed = some re → re.MatchString (entryFeedTitle e) = true) ∧
         (∀ re, cr.author = some re → re.MatchString e.Author = true) ∧
         (∀ re, cr.title = some re → re.MatchString e.Title = true) ∧
         (∀ re, cr.content = some re → re.MatchString e.Content = true))) := by
  refine ⟨?_, ?_, ?_⟩
  · intro h
    unfold Match
    rw [find_none _ _ h]
  · intro pre cr post hsplit hpre hcr
    unfold Match
    rw [hsplit, find_first _ pre cr post hpre hcr]
  · intro cr
    obtain ⟨rule, f, a, t, c⟩ := cr
    obtain ⟨id, ti, au, co, fe⟩ := e
    unfold matchRule entryFeedTitle
    cases f <;> cases a <;> cases t <;> cases c <;> cases fe <;>
      simp [Bool.and_eq_true, and_assoc]

/-- Witness for C1: with two rules both matching author Bob, the first
(action `read`) wins. -/
theorem c1_witness :
    Match mAB eBob = { Matched := true, Rule := some ruleA, Action := "read" } := by
  have h := (c1_match_first_wins mAB eBob).2.1 [] crA [crB] rfl (by simp) (by decide)
  exact h.trans rfl

/-! C4 -/

/-- Counterexample to C4: `ruleStar`'s feed pattern is the non-empty Go
pattern `.*` (it compiles, and `NewMatcher` accepts the rule), the item has
no parent-feed reference, and yet `Match` selects the rule: the missing feed
is evaluated as the empty feed title, which `.*` matches. -/
theorem c4_counterexample :
    ruleStar.Feed ≠ "" ∧
    NewMatcher compileStar [ruleStar] = .ok mStar ∧
    eNoFeed.Feed = none ∧
    Match mStar eNoFeed = { Matched := true, Rule := some ruleStar, Action := "read" } :=
  ⟨by decide, rfl, rfl, rfl⟩

/-- C4 (amended): an item with no parent-feed reference never matches a rule
whose non-empty feed pattern does not match the empty string; a matcher all
of whose rules carry such a feed pattern returns the non-matched result on
such an item. -/
theorem c4_feedless_never_matches (e : Entry) (he : e.Feed = none) :
    (∀ (cr : compiledRule) (re : Regexp), cr.feed = some re →
       re.MatchString "" = false → matchRule cr e = false)
    ∧
    (∀ m : Matcher,
       (∀ cr ∈ m.compiledRules, ∃ re, cr.feed = some re ∧ re.MatchString "" = false) →
       Match m e = { Matched := false, Rule := none, Action := "" }) := by
  have key : ∀ (cr : compiledRule) (re : Regexp), cr.feed = some re →
      re.MatchString "" = false → matchRule cr e = false := by
    intro cr re hf hre
    simp [matchRule, hf, he, hre]
  refine ⟨key, ?_⟩
  intro m hm
  unfold Match
  rw [find_none]
  intro cr hcr
  obtain ⟨re, hf, hre⟩ := hm cr hcr
  exact key cr re hf hre

/-- Witness for C4 (amended): the spec's own example, rule `Tech.*` against
a feedless item, does not match. -/
theorem c4_witness :
    Match { compiledRules := [crTech] } eNoFeed = { Matched := false, Rule := none, Action := "" } :=
  (c4_feedless_never_matches eNoFeed rfl).2 _ (by
    intro cr hcr
    rw [show ({ compiledRules := [crTech] } : Matcher).compiledRules = [crTech] from rfl] at hcr
    simp only [List.mem_singleton] at hcr
    subst hcr
    exact ⟨litTechStar, rfl, by decide⟩)

/-! C5 -/

/-- C5: against an item with no parent-feed reference, a rule's feed pattern
is evaluated on the empty string as feed title (conjuncts 1 and 2:
`matchRule` and `Match` behave as if the item had an empty feed title;
conjunct 3: the Go pattern `.+` therefore fails on feedless items), while a
rule with no feed pattern is unaffected by the feed metadata entirely
(conjunct 4). -/
theorem c5_feedless_empty_title (m : Matcher) (cr : compiledRule) (e : Entry)
    (he : e.Feed = none) :
    (matchRule cr e = matchRule cr { e with Feed := some { Title := "" } })
    ∧ (Match m e = Match m { e with Feed := some { Title := "" } })
    ∧ (cr.feed = some dotPlus → matchRule cr e = false)
    ∧ (cr.feed = none → ∀ fd : Option Feed, matchRule cr e = matchRule cr { e with Feed := fd }) := by
  refine ⟨matchRule_feed_none cr e he, ?_, ?_, ?_⟩
  · unfold Match
    rw [find_congr (fun cr' => matchRule cr' e)
      (fun cr' => matchRule cr' { e with Feed := some { Title := "" } }) _
      (fun cr' _ => matchRule_feed_none cr' e he)]
  · intro hf
    simp [matchRule, hf, he, show Regexp.MatchString dotPlus "" = false from by decide]
  · intro hf fd
    simp [matchRule, hf]

/-- Witness for C5: the `.+` feed rule fails on a feedless entry. -/
theorem c5_witness : matchRule crPlus eNoFeed = false :=
  (c5_feedless_empty_title { compiledRules := [crPlus] } crPlus eNoFeed rfl).2.2.1 rfl

/-! C6 -/

theorem compileField_ok {compile : String → Option Regexp} {pat : String} (fn rn : String)
    (h : fieldOk compile pat = true) :
    ∃ o, compileField compile pat fn rn = .ok o := by
  by_cases hp : pat = ""
  · exact ⟨none, by simp [compileField, hp]⟩
  · have hs : (compile pat).isSome = true := by simpa [fieldOk, hp] using h
    obtain ⟨re, hre⟩ := Option.isSome_iff_exists.mp hs
    exact ⟨some re, by simp [compileField, hp, hre]⟩

theorem compileField_err {compile : String → Option Regexp} {pat : String} (fn rn : String)
    (h : fieldOk compile pat = false) :
    compileField compile pat fn rn = .error { Field := fn, Rule := rn } := by
  have hp : pat ≠ "" := by
    intro hp
    simp [fieldOk, hp] at h
  have hc : compile pat = none := by
    cases hc : compile pat with
    | none => rfl
    | some re => simp [fieldOk, hp, hc] at h
  simp [compileField, hp, hc]

theorem compileRule_ok {compile : String → Option Regexp} {r : Rule}
    (h : ruleOk compile r = true) :
    ∃ cr, compileRule compile r = .ok cr ∧ cr.rule = r := by
  have h4 : fieldOk compile r.Feed = true ∧ fieldOk compile r.Author = true ∧
      fieldOk compile r.Title = true ∧ fieldOk compile r.Content = true := by
    simpa [ruleOk, Bool.and_eq_true, and_assoc] using h
  obtain ⟨f, hf⟩ := compileField_ok "feed" r.Name h4.1
  obtain ⟨a, ha⟩ := compileField_ok "author" r.Name h4.2.1
  obtain ⟨t, ht⟩ := compileField_ok "title" r.Name h4.2.2.1
  obtain ⟨c, hc⟩ := compileField_ok "content" r.Name h4.2.2.2
  exact ⟨_, by rw [compileRule, hf, ha, ht, hc], rfl⟩

theorem compileRule_err {compile : String → Option Regexp} {r : Rule}
    (h : ruleOk compile r = false) :
    compileRule compile r =
      .error { Field := firstInvalidField compile r, Rule := r.Name } := by
  cases hf : fieldOk compile r.Feed with
  | false =>
    rw [compileRule, compileField_err "feed" r.Name hf]
    simp [firstInvalidField, hf]
  | true =>
    obtain ⟨f, hf'⟩ := compileField_ok "feed" r.Name hf
    cases ha : fieldOk compile r.Author with
    | false =>
      rw [compileRule, hf', compileField_err "author" r.Name ha]
      simp [firstInvalidField, hf, ha]
    | true =>
      obtain ⟨a, ha'⟩ := compileField_ok "author" r.Name ha
      cases ht : fieldOk compile r.Title with
      | false =>
        rw [compileRule, hf', ha', compileField_err "title" r.Name ht]
        simp [firstInvalidField, hf, ha, ht]
      | true =>
        obtain ⟨t, ht'⟩ := compileField_ok "title" r.Name ht
        cases hc : fieldOk compile r.Content with
        | false =>
          rw [compileRule, hf', ha', ht', compileField_err "content" r.Name hc]
          simp [firstInvalidField, hf, ha, ht, hc]
        | true => simp [ruleOk, hf, ha, ht, hc] at h

theorem compileRules_ok {compile : String → Option Regexp} (rules : List Rule) :
    (∀ r ∈ rules, ruleOk compile r = true) →
    ∃ crs, compileRules compile rules = .ok crs := by
  induction rules with
  | nil => exact fun _ => ⟨[], rfl⟩
  | cons r rest ih =>
    intro h
    obtain ⟨cr, hcr, _⟩ := compileRule_ok (h r (by simp))
    obtain ⟨crs, hcrs⟩ := ih fun x hx => h x (by simp [hx])
    exact ⟨cr :: crs, by rw [compileRules, hcr, hcrs]⟩

theorem compileRules_err {compile : String → Option Regexp}
    (pre : List Rule) (bad : Rule) (post : List Rule) :
    (∀ r ∈ pre, ruleOk compile r = true) → ruleOk compile bad = false →
    compileRules compile (pre ++ bad :: post) =
      .error { Field := firstInvalidField compile bad, Rule := bad.Name } := by
  induction pre with
  | nil =>
    intro _ hbad
    rw [List.nil_append, compileRules, compileRule_err hbad]
  | cons r rest ih =>
    intro hpre hbad
    obtain ⟨cr, hcr, _⟩ := compileRule_ok (hpre r (by simp))
    rw [List.cons_append, compileRules, hcr,
      ih (fun x hx => hpre x (by simp [hx])) hbad]

theorem firstInvalidField_mem {compile : String → Option Regexp} {r : Rule}
    (h : ruleOk compile r = false) :
    firstInvalidField compile r ∈ (["feed", "author", "title", "content"] : List String) := by
  cases hf : fieldOk compile r.Feed <;> cases ha : fieldOk compile r.Author <;>
    cases ht : fieldOk compile r.Title <;> cases hc : fieldOk compile r.Content <;>
      simp [firstInvalidField, hf, ha, ht, hc]
  simp [ruleOk, hf, ha, ht, hc] at h

/-- C6: if every rule's non-empty patterns compile (in particular for the
empty rule sequence), `NewMatcher` succeeds; if a rule has an invalid
pattern, `NewMatcher` returns an error (no Matcher) naming that rule and the
exact failing field, which is one of `feed`, `author`, `title`, `content`,
where the reported rule is the first failing one and the field the first
failing field of that rule in source order; the quantification over `post`
shows the result is independent of the rules after the failing one
(fail-fast: they are never compiled). -/
theorem c6_newmatcher_fail_fast (compile : String → Option Regexp) :
    (∀ rules : List Rule, (∀ r ∈ rules, ruleOk compile r = true) →
       ∃ mm, NewMatcher compile rules = .ok mm)
    ∧
    (∀ pre bad post, (∀ r ∈ pre, ruleOk compile r = true) →
       ruleOk compile bad = false →
       NewMatcher compile (pre ++ bad :: post) =
         .error { Field := firstInvalidField compile bad, Rule := bad.Name }
       ∧ firstInvalidField compile bad ∈ (["feed", "author", "title", "content"] : List String)) := by
  constructor
  · intro rules h
    obtain ⟨crs, hcrs⟩ := compileRules_ok rules h
    exact ⟨{ compiledRules := crs }, by rw [NewMatcher, hcrs]⟩
  · intro pre bad post hpre hbad
    refine ⟨?_, firstInvalidField_mem hbad⟩
    rw [NewMatcher, compileRules_err pre bad post hpre hbad]

/-- Witness for C6: with the invalid pattern `[bad` in `ruleBad`'s author
field, construction fails naming rule `Bad` and field `author`, ignoring the
also-invalid later rule; the single valid rule constructs fine. -/
theorem c6_witness :
    NewMatcher compileW [ruleGood, ruleBad, ruleAfter] =
      .error { Field := "author", Rule := "Bad" } ∧
    ∃ mm, NewMatcher compileW [ruleGood] = .ok mm := by
  constructor
  · exact ((c6_newmatcher_fail_fast compileW).2 [ruleGood] ruleBad [ruleAfter]
      (by decide) (by decide)).1
  · exact (c6_newmatcher_fail_fast compileW).1 [ruleGood] (by decide)

/-! Helper lemmas about the processor. -/

/-- Unfolding of `processLoop` at positive fuel (definitional). -/
theorem processLoop_succ (client : Client) (m : Matcher) (dry : Bool)
    (f offset : Nat) (stats : ProcessStats) :
    processLoop client m dry (f + 1) offset stats =
      (match client.Entries (loopFilter dry offset) with
       | .error _ =>
         { stats := stats, fetchCalls := [loopFilter dry offset], updateCalls := [],
           err := some .fetchFailed }
       | .ok page =>
         if page.Entries.length = 0 then
           { stats := stats, fetchCalls := [loopFilter dry offset], updateCalls := [],
             err := none }
         else
           let r := processPage client m dry page.Entries stats
           let offset1 := offset + page.Entries.length
           if page.Total ≤ (offset1 : Int) then
             { stats := r.1, fetchCalls := [loopFilter dry offset], updateCalls := r.2,
               err := none }
           else
             let rest := processLoop client m dry f offset1 r.1
             { stats := rest.stats, fetchCalls := loopFilter dry offset :: rest.fetchCalls,
               updateCalls := r.2 ++ rest.updateCalls, err := rest.err }) := rfl

/-- The update step only ever touches the error counter. -/
theorem processEntryApply_counters (client : Client) (dry : Bool) (e : Entry)
    (status : String) (s : ProcessStats) :
    ((processEntryApply client dry e status s).1.TotalEntries = s.TotalEntries)
    ∧ ((processEntryApply client dry e status s).1.MatchedEntries = s.MatchedEntries)
    ∧ ((processEntryApply client dry e status s).1.MarkedRead = s.MarkedRead)
    ∧ ((processEntryApply client dry e status s).1.Removed = s.Removed) := by
  cases dry
  · cases hu : client.UpdateEntries [e.ID] status <;> simp [processEntryApply, hu]
  · simp [processEntryApply]

/-- The total-seen counter is never touched by `processEntry`. -/
theorem processEntry_TotalEntries (client : Client) (m : Matcher) (dry : Bool)
    (e : Entry) (s : ProcessStats) :
    (processEntry client m dry e s).1.TotalEntries = s.TotalEntries := by
  by_cases hm : (Match m e).Matched = false
  · simp [processEntry, hm]
  · by_cases hr : (Match m e).Action = "read"
    · simp [processEntry, hm, hr, (processEntryApply_counters client dry e EntryStatusRead _).1]
    · by_cases hv : (Match m e).Action = "remove"
      · simp [processEntry, hm, hr, hv,
          (processEntryApply_counters client dry e EntryStatusRemoved _).1]
      · simp [processEntry, hm, hr, hv]

/-- Every entry of a page is counted as seen, whatever the update
outcomes. -/
theorem processPage_TotalEntries (client : Client) (m : Matcher) (dry : Bool)
    (es : List Entry) (s : ProcessStats) :
    (processPage client m dry es s).1.TotalEntries = s.TotalEntries + es.length := by
  induction es generalizing s with
  | nil => simp [processPage]
  | cons e rest ih =>
    show (processPage client m dry rest
      (processEntry client m dry e { s with TotalEntries := s.TotalEntries + 1 }).1).1.TotalEntries
        = s.TotalEntries + (rest.length + 1)
    rw [ih, processEntry_TotalEntries]
    dsimp only
    omega

/-! C7 -/

/-- C7: (a) a failed page fetch aborts the run at once, returning the
statistics accumulated so far together with the error and issuing nothing
further; (b) every entry of a page is processed and counted regardless of
per-item update outcomes, and a failed single-item update for a matched
rule with a recognised action increments the error counter; (c) a matched
rule whose lower-cased action is neither `read` nor `remove` increments the
error counter and issues no update call. -/
theorem c7_error_handling (client : Client) (m : Matcher) :
    (∀ (dry : Bool) (fuel offset : Nat) (stats : ProcessStats),
       client.Entries (loopFilter dry offset) = .error () →
       processLoop client m dry (fuel + 1) offset stats =
         { stats := stats, fetchCalls := [loopFilter dry offset], updateCalls := [],
           err := some .fetchFailed })
    ∧
    (∀ (dry : Bool) (es : List Entry) (s : ProcessStats),
       (processPage client m dry es s).1.TotalEntries = s.TotalEntries + es.length)
    ∧
    (∀ (e : Entry) (s : ProcessStats), (Match m e).Matched = true →
       ((Match m e).Action = "read" →
          client.UpdateEntries [e.ID] EntryStatusRead = .error () →
          (processEntry client m false e s).1.Errors = s.Errors + 1)
       ∧
       ((Match m e).Action = "remove" →
          client.UpdateEntries [e.ID] EntryStatusRemoved = .error () →
          (processEntry client m false e s).1.Errors = s.Errors + 1))
    ∧
    (∀ (dry : Bool) (e : Entry) (s : ProcessStats), (Match m e).Matched = true →
       (Match m e).Action ≠ "read" → (Match m e).Action ≠ "remove" →
       processEntry client m dry e s =
         ({ s with MatchedEntries := s.MatchedEntries + 1, Errors := s.Errors + 1 }, [])) := by
  refine ⟨?_, ?_, ?_, ?_⟩
  · intro dry fuel offset stats h
    rw [processLoop_succ, h]
  · intro dry es s
    exact processPage_TotalEntries client m dry es s
  · intro e s hm
    constructor
    · intro hr hu
      simp [processEntry, hm, hr, processEntryApply, hu]
    · intro hv hu
      by_cases hr : (Match m e).Action = "read"
      · rw [hr] at hv; simp at hv
      · simp [processEntry, hm, hr, hv, processEntryApply, hu]
  · intro dry e s hm hr hv
    simp [processEntry, hm, hr, hv]

/-- A client whose page fetches always fail. -/
def fetchFailClient : Client :=
  { Entries := fun _ => .error (), UpdateEntries := fun _ _ => .ok () }

/-- A client whose single-item updates always fail. -/
def updateFailClient : Client :=
  { Entries := fun _ => .ok { Entries := [], Total := 0 }, UpdateEntries := fun _ _ => .error () }

/-- Fixture rule with an unrecognised action. -/
def ruleArchive : Rule :=
  { Name := "Archive Bob", Feed := "", Author := "Bob", Title := "", Content := "", Action := "Archive" }

/-- Compiled form of `ruleArchive`. -/
def crArchive : compiledRule :=
  { rule := ruleArchive, feed := none, author := some (Regexp.lit "Bob"), title := none, content := none }

/-- Matcher holding only `crA` (action `read` on author Bob). -/
def mRead : Matcher := { compiledRules := [crA] }

/-- Matcher holding only `crArchive`. -/
def mArchive : Matcher := { compiledRules := [crArchive] }

/-- Witness for C7 at concrete inputs: a failing fetch aborts with the
incoming statistics; a failing update on a matched `read` rule counts one
error; an unrecognised action `Archive` (lower-cased `archive`) counts one
error and issues no call. -/
theorem c7_witness :
    processLoop fetchFailClient mRead false 5 0 ProcessStats.zero =
      { stats := ProcessStats.zero, fetchCalls := [loopFilter false 0], updateCalls := [],
        err := some .fetchFailed }
    ∧ (processEntry updateFailClient mRead false eBob ProcessStats.zero).1.Errors = 1
    ∧ processEntry updateFailClient mArchive false eBob ProcessStats.zero =
        ({ ProcessStats.zero with MatchedEntries := 1, Errors := 1 }, []) := by
  refine ⟨?_, ?_, ?_⟩
  · exact (c7_error_handling fetchFailClient mRead).1 false 4 0 ProcessStats.zero rfl
  · exact ((c7_error_handling updateFailClient mRead).2.2.1 eBob ProcessStats.zero
      (by decide)).1 (by decide) rfl
  · exact (c7_error_handling updateFailClient mArchive).2.2.2 false eBob ProcessStats.zero
      (by decide) (by decide) (by decide)

/-! C10 -/

/-- C10: in live mode, when the update call for a matched item fails, the
marked-read (resp. removed) counter has already been incremented and is not
rolled back, and the error counter is incremented on top — the update call
is still recorded as attempted. -/
theorem c10_counters_count_attempts (client : Client) (m : Matcher) (e : Entry)
    (s : ProcessStats) (hm : (Match m e).Matched = true) :
    ((Match m e).Action = "read" →
       client.UpdateEntries [e.ID] EntryStatusRead = .error () →
       processEntry client m false e s =
         ({ s with MatchedEntries := s.MatchedEntries + 1, MarkedRead := s.MarkedRead + 1,
                   Errors := s.Errors + 1 }, [([e.ID], EntryStatusRead)]))
    ∧
    ((Match m e).Action = "remove" →
       client.UpdateEntries [e.ID] EntryStatusRemoved = .error () →
       processEntry client m false e s =
         ({ s with MatchedEntries := s.MatchedEntries + 1, Removed := s.Removed + 1,
                   Errors := s.Errors + 1 }, [([e.ID], EntryStatusRemoved)])) := by
  constructor
  · intro hr hu
    simp [processEntry, hm, hr, processEntryApply, hu]
  · intro hv hu
    by_cases hr : (Match m e).Action = "read"
    · rw [hr] at hv; simp at hv
    · simp [processEntry, hm, hr, hv, processEntryApply, hu]

/-- Witness for C10: a failing `read` update still counts the entry as
marked read, plus one error, with the attempted call recorded. -/
theorem c10_witness :
    processEntry updateFailClient mRead false eBob ProcessStats.zero =
      ({ ProcessStats.zero with MatchedEntries := 1, MarkedRead := 1, Errors := 1 },
        [([(1 : Int)], EntryStatusRead)]) := by
  have h := (c10_counters_count_attempts updateFailClient mRead eBob ProcessStats.zero
    (by decide)).1 (by decide) rfl
  exact h.trans (by decide)

/-! C8 -/

theorem processEntry_dry_updates (client : Client) (m : Matcher) (e : Entry)
    (s : ProcessStats) : (processEntry client m true e s).2 = [] := by
  by_cases hm : (Match m e).Matched = false
  · simp [processEntry, hm]
  · by_cases hr : (Match m e).Action = "read"
    · simp [processEntry, hm, hr, processEntryApply]
    · by_cases hv : (Match m e).Action = "remove"
      · simp [processEntry, hm, hr, hv, processEntryApply]
      · simp [processEntry, hm, hr, hv]

theorem processPage_dry_updates (client : Client) (m : Matcher) (es : List Entry)
    (s : ProcessStats) : (processPage client m true es s).2 = [] := by
  induction es generalizing s with
  | nil => rfl
  | cons e rest ih => simp [processPage, processEntry_dry_updates, ih]

theorem processLoop_dry_updates (client : Client) (m : Matcher) (fuel : Nat) :
    ∀ (offset : Nat) (stats : ProcessStats),
      (processLoop client m true fuel offset stats).updateCalls = [] := by
  induction fuel with
  | zero => intro offset stats; rfl
  | succ f ih =>
    intro offset stats
    rw [processLoop_succ]
    cases he : client.Entries (loopFilter true offset) with
    | error e => rfl
    | ok page =>
      by_cases h0 : page.Entries.length = 0
      · simp [h0]
      · by_cases hT : page.Total ≤ (offset : Int) + (page.Entries.length : Int)
        · simp [h0, hT, processPage_dry_updates]
        · simp [h0, hT, processPage_dry_updates, ih]

/-- C8: in dry-run mode, `Process` never issues an update call to the remote
source (for any client and any run length), while the per-entry marked-read
and removed counters change exactly as in live mode (for any pair of
clients, hence for any update outcome of the live run). -/
theorem c8_dry_run (m : Matcher) :
    (∀ (client : Client) (fuel : Nat), (Process client m true fuel).updateCalls = [])
    ∧
    (∀ (client client' : Client) (e : Entry) (s : ProcessStats),
       (processEntry client m true e s).1.MarkedRead
           = (processEntry client' m false e s).1.MarkedRead
       ∧ (processEntry client m true e s).1.Removed
           = (processEntry client' m false e s).1.Removed) := by
  constructor
  · intro client fuel
    exact processLoop_dry_updates client m fuel 0 ProcessStats.zero
  · intro client client' e s
    by_cases hm : (Match m e).Matched = false
    · simp [processEntry, hm]
    · by_cases hr : (Match m e).Action = "read"
      · simp [processEntry, hm, hr, processEntryApply_counters]
      · by_cases hv : (Match m e).Action = "remove"
        · simp [processEntry, hm, hr, hv, processEntryApply_counters]
        · simp [processEntry, hm, hr, hv]

/-! C9 -/

theorem processLoop_filters (client : Client) (m : Matcher) (dry : Bool) (fuel : Nat) :
    ∀ (offset : Nat) (stats : ProcessStats),
      ∀ filt ∈ (processLoop client m dry fuel offset stats).fetchCalls,
        filt.Status = (if dry then "" else EntryStatusUnread) ∧ filt.Limit = 100 := by
  induction fuel with
  | zero =>
    intro offset stats filt h
    simp [processLoop] at h
  | succ f ih =>
    intro offset stats filt h
    rw [processLoop_succ] at h
    cases he : client.Entries (loopFilter dry offset) with
    | error e =>
      rw [he] at h
      simp at h
      subst h
      exact ⟨rfl, rfl⟩
    | ok page =>
      rw [he] at h
      by_cases h0 : page.Entries.length = 0
      · simp [h0] at h
        subst h
        exact ⟨rfl, rfl⟩
      · by_cases hT : page.Total ≤ (offset : Int) + (page.Entries.length : Int)
        · simp [h0, hT] at h
          subst h
          exact ⟨rfl, rfl⟩
        · simp [h0, hT] at h
          rcases h with h | h
          · subst h
            exact ⟨rfl, rfl⟩
          · exact ih _ _ filt h

/-- C9: every page request issued by `Process` carries the fixed page size
100, and carries the `unread` status filter in live mode and no status
filter (the Go zero value `""`) in dry-run mode. -/
theorem c9_status_filter (client : Client) (m : Matcher) (dry : Bool) (fuel : Nat) :
    ∀ filt ∈ (Process client m dry fuel).fetchCalls,
      filt.Status = (if dry then "" else EntryStatusUnread) ∧ filt.Limit = 100 :=
  processLoop_filters client m dry fuel 0 ProcessStats.zero

/-- Witness for C9: the one fetch of a one-page live run carries the unread
filter, and of a dry run carries no status filter. -/
theorem c9_witness :
    ((loopFilter false 0).Status = EntryStatusUnread ∧ (loopFilter false 0).Limit = 100)
    ∧ ((loopFilter true 0).Status = "" ∧ (loopFilter true 0).Limit = 100) := by
  have h1 := c9_status_filter shortPageClient matcher0 false 1 (loopFilter false 0) (by decide)
  have h2 := c9_status_filter shortPageClient matcher0 true 1 (loopFilter true 0) (by decide)
  exact ⟨h1, h2⟩

/-! C2 -/

/-- Unfolding of `processLoop` at positive fuel when the fetch fails (definitional
consequence of `processLoop_succ`). -/
theorem processLoop_err (client : Client) (m : Matcher) (dry : Bool)
    (f offset : Nat) (stats : ProcessStats)
    (h : client.Entries (loopFilter dry offset) = .error ()) :
    processLoop client m dry (f + 1) offset stats =
      { stats := stats, fetchCalls := [loopFilter dry offset], updateCalls := [],
        err := some .fetchFailed } := by
  rw [processLoop_succ, h]

/-- Unfolding of `processLoop` at positive fuel when the fetch succeeds (definitional
consequence of `processLoop_succ`). -/
theorem processLoop_ok (client : Client) (m : Matcher) (dry : Bool)
    (f offset : Nat) (stats : ProcessStats) (page : Page)
    (h : client.Entries (loopFilter dry offset) = .ok page) :
    processLoop client m dry (f + 1) offset stats =
      (if page.Entries.length = 0 then
        { stats := stats, fetchCalls := [loopFilter dry offset], updateCalls := [],
          err := none }
      else if page.Total ≤ ((offset + page.Entries.length : Nat) : Int) then
        { stats := (processPage client m dry page.Entries stats).1,
          fetchCalls := [loopFilter dry offset],
          updateCalls := (processPage client m dry page.Entries stats).2, err := none }
      else
        { stats := (processLoop client m dry f (offset + page.Entries.length)
            (processPage client m dry page.Entries stats).1).stats,
          fetchCalls := loopFilter dry offset :: (processLoop client m dry f
            (offset + page.Entries.length)
            (processPage client m dry page.Entries stats).1).fetchCalls,
          updateCalls := (processPage client m dry page.Entries stats).2 ++
            (processLoop client m dry f (offset + page.Entries.length)
              (processPage client m dry page.Entries stats).1).updateCalls,
          err := (processLoop client m dry f (offset + page.Entries.length)
            (processPage client m dry page.Entries stats).1).err }) := by
  rw [processLoop_succ, h]

/-- With fuel left, the loop always issues at least one fetch. -/
theorem processLoop_fetchCalls_ne_nil (client : Client) (m : Matcher) (dry : Bool)
    (f offset : Nat) (stats : ProcessStats) :
    (processLoop client m dry (f + 1) offset stats).fetchCalls ≠ [] := by
  cases he : client.Entries (loopFilter dry offset) with
  | error e =>
    cases e
    rw [processLoop_err client m dry f offset stats he]
    simp
  | ok page =>
    rw [processLoop_ok client m dry f offset stats page he]
    by_cases h0 : page.Entries.length = 0
    · rw [if_pos h0]
      simp
    · rw [if_neg h0]
      by_cases hT : page.Total ≤ ((offset + page.Entries.length : Nat) : Int)
      · rw [if_pos hT]
        simp
      · rw [if_neg hT]
        simp

/-- Counterexample to C2: the remote source always answers with a 50-entry
page — fewer than the requested page size of 100 — and reports total 150.
If a short page by itself signalled end of data, the run would stop after
one fetch of 50 entries; instead the loop continues until the offset
reaches the reported total: three fetches, 150 entries processed. -/
theorem c2_counterexample :
    (shortPageClient.Entries (loopFilter false 0) =
      .ok { Entries := List.replicate 50 eBob, Total := 150 })
    ∧ (List.replicate 50 eBob).length < 100
    ∧ (Process shortPageClient matcher0 false 10).fetchCalls.length = 3
    ∧ (Process shortPageClient matcher0 false 10).stats.TotalEntries = 150
    ∧ (Process shortPageClient matcher0 false 10).err = none :=
  ⟨rfl, by decide, by decide, by decide, rfl⟩

/-- C2 (amended): given the page fetched at the current offset, the
pagination loop stops after this page (exactly one fetch happens) if and
only if the page is empty, or the offset advanced by the page length
reaches the remote-reported total.  In particular a non-empty page shorter
than the requested 100 does not by itself end the loop. -/
theorem c2_loop_stop_iff (client : Client) (m : Matcher) (dry : Bool)
    (f offset : Nat) (stats : ProcessStats) (page : Page)
    (hok : client.Entries (loopFilter dry offset) = .ok page) :
    (processLoop client m dry (f + 2) offset stats).fetchCalls.length = 1
      ↔ (page.Entries.length = 0
         ∨ page.Total ≤ ((offset + page.Entries.length : Nat) : Int)) := by
  rw [processLoop_ok client m dry (f + 1) offset stats page hok]
  by_cases h0 : page.Entries.length = 0
  · rw [if_pos h0]
    exact ⟨fun _ => Or.inl h0, fun _ => rfl⟩
  · rw [if_neg h0]
    by_cases hT : page.Total ≤ ((offset + page.Entries.length : Nat) : Int)
    · rw [if_pos hT]
      exact ⟨fun _ => Or.inr hT, fun _ => rfl⟩
    · rw [if_neg hT]
      have hne := processLoop_fetchCalls_ne_nil client m dry f
        (offset + page.Entries.length) (processPage client m dry page.Entries stats).1
      constructor
      · intro hlen
        exfalso
        have hlen2 : (processLoop client m dry (f + 1) (offset + page.Entries.length)
            (processPage client m dry page.Entries stats).1).fetchCalls.length + 1 = 1 := by
          simpa using hlen
        exact hne (List.length_eq_zero.mp (by omega))
      · intro hor
        rcases hor with h | h
        · exact absurd h h0
        · exact absurd h hT

/-- Witness for C2 (amended): on the short-page source the first page (50
entries, total 150) satisfies neither stop condition, so by the theorem the
run does not stop after one fetch. -/
theorem c2_witness :
    ¬ (processLoop shortPageClient matcher0 false 4 0 ProcessStats.zero).fetchCalls.length = 1 := by
  intro h
  have h2 := (c2_loop_stop_iff shortPageClient matcher0 false 2 0 ProcessStats.zero
    { Entries := List.replicate 50 eBob, Total := 150 } rfl).mp h
  revert h2
  decide

/-! C3 -/

/-- On a consistent source serving the collection `L`, the loop from any
reached offset terminates normally having counted exactly the remaining
entries. -/
theorem processLoop_consistent (L : List Entry) (client : Client) (m : Matcher) (dry : Bool)
    (hc : ∀ filt, client.Entries filt =
      .ok { Entries := (L.drop filt.Offset).take filt.Limit, Total := (L.length : Int) })
    (fuel : Nat) :
    ∀ (offset : Nat) (stats : ProcessStats), offset ≤ L.length → L.length - offset < fuel →
      (processLoop client m dry fuel offset stats).err = none ∧
      (processLoop client m dry fuel offset stats).stats.TotalEntries
        = stats.TotalEntries + (L.length - offset) := by
  induction fuel with
  | zero =>
    intro offset stats _ h
    omega
  | succ f ih =>
    intro offset stats hoff hfuel
    have hc' : client.Entries (loopFilter dry offset) =
        .ok { Entries := (L.drop offset).take 100, Total := (L.length : Int) } := hc _
    have hlen : ((L.drop offset).take 100).length = min 100 (L.length - offset) := by
      simp [List.length_take, List.length_drop]
    rw [processLoop_ok client m dry f offset stats _ hc']
    dsimp only
    by_cases h0 : ((L.drop offset).take 100).length = 0
    · rw [if_pos h0]
      refine ⟨rfl, ?_⟩
      have hz : L.length - offset = 0 := by omega
      simp [hz]
    · rw [if_neg h0]
      by_cases hT : (L.length : Int) ≤
          ((offset + ((L.drop offset).take 100).length : Nat) : Int)
      · rw [if_pos hT]
        refine ⟨rfl, ?_⟩
        have hTn : L.length ≤ offset + ((L.drop offset).take 100).length := by
          exact_mod_cast hT
        have hp := processPage_TotalEntries client m dry ((L.drop offset).take 100) stats
        rw [hp]
        omega
      · rw [if_neg hT]
        have hTn : ¬ L.length ≤ offset + ((L.drop offset).take 100).length := by
          intro hx
          exact hT (by exact_mod_cast hx)
        have hih := ih (offset + ((L.drop offset).take 100).length)
          (processPage client m dry ((L.drop offset).take 100) stats).1
          (by omega) (by omega)
        refine ⟨hih.1, ?_⟩
        have hp := processPage_TotalEntries client m dry ((L.drop offset).take 100) stats
        rw [hih.2, hp]
        omega

/-- C3: against any remote source serving a fixed collection of N items
consistently — each page is the slice of the collection at the requested
offset, of at most the requested size (100 in every request the loop
makes), with the correct total N — `Process` terminates normally (no error,
no fuel exhaustion at fuel N+1) and reports `TotalEntries = N`, for every
N, in particular N = 0 and N = 150. -/
theorem c3_pagination_complete (L : List Entry) (client : Client) (m : Matcher) (dry : Bool)
    (hc : ∀ filt, client.Entries filt =
      .ok { Entries := (L.drop filt.Offset).take filt.Limit, Total := (L.length : Int) }) :
    (Process client m dry (L.length + 1)).err = none ∧
    (Process client m dry (L.length + 1)).stats.TotalEntries = L.length := by
  have h := processLoop_consistent L client m dry hc (L.length + 1) 0 ProcessStats.zero
    (by omega) (by omega)
  refine ⟨h.1, ?_⟩
  unfold Process
  rw [h.2]
  show 0 + (L.length - 0) = L.length
  omega

/-- Witness for C3 at the two sizes named by the claim: N = 150 (two pages,
100 + 50) and N = 0 (immediate termination). -/
theorem c3_witness :
    ((Process (consistentClient (List.replicate 150 eBob)) matcher0 false 151).err = none
      ∧ (Process (consistentClient (List.replicate 150 eBob)) matcher0 false 151).stats.TotalEntries = 150)
    ∧ ((Process (consistentClient []) matcher0 false 1).err = none
      ∧ (Process (consistentClient []) matcher0 false 1).stats.TotalEntries = 0) := by
  constructor
  · have h := c3_pagination_complete (List.replicate 150 eBob)
      (consistentClient (List.replicate 150 eBob)) matcher0 false (fun _ => rfl)
    simpa using h
  · have h := c3_pagination_complete [] (consistentClient []) matcher0 false (fun _ => rfl)
    simpa using h

end MinifluxJobs
